import Mathlib

/-
Verification of the IELTS exam-preparation web application's audio and AI
helper components against their natural-language specification.

Each section shallowly embeds one component of the source:

* `AudioQueue`   — the `useAudioClipQueue` hook: sequential playback of
  base64 PCM clips with cooperative cancellation via a session counter.
* `Player`       — the `SafeAudioPlayer` component: fallback to speech
  synthesis, voice selection, seeking.
* `Gemini`       — the `callGemini` helper of the explain-answer-followup
  edge function: model-name fallback list.
* `AnalyzePerf`  — the analyze-performance edge function's handling of
  unparseable model output.
* `Loading`      — the `AILoadingScreen` progress simulator.

JavaScript numbers are modelled as `Nat`/`Rat`, promises as explicit event
traces, and the single-threaded event loop as "synchronous slices": between
two consecutive `await` suspension points no other code runs, so every read
of a mutable ref within one slice sees the same value.
-/

namespace AudioQueue

/- Source: `useAudioClipQueue` hook (type `PcmClip`, `stop`, `playClips`). -/

/-- A PCM clip as passed to `playClips`: base64 audio and an optional
sample rate (`sampleRate?: number`). -/
structure PcmClip where
  key : String
  text : Option String
  audioBase64 : String
  sampleRate : Option Nat
deriving DecidableEq

/-- Modelled from the spec: `pcm16Base64ToWavUrl` is imported from
`@/lib/audio/pcmToWav`, whose source is not part of this repository
snapshot.  Per the spec it "decodes each clip to a playable audio
resource" from the base64 PCM payload and the sample rate; we model the
resulting WAV object URL by exactly those two inputs. -/
structure WavUrl where
  audioBase64 : String
  sampleRate : Nat
deriving DecidableEq

/-- `pcm16Base64ToWavUrl(clip.audioBase64, clip.sampleRate ?? 24000)`. -/
def pcm16Base64ToWavUrl (b64 : String) (rate : Nat) : WavUrl :=
  ⟨b64, rate⟩

/-- The WAV resource built for a clip, with the source's `?? 24000` default. -/
def decodeClip (c : PcmClip) : WavUrl :=
  pcm16Base64ToWavUrl c.audioBase64 (c.sampleRate.getD 24000)

/-- Observable events of one `playClips` invocation.  `pauseAudio` is the
event of calling `pause()` on a clip's audio element; the hook never does
so, and the constructor exists so that this frame property can be stated. -/
inductive Ev
  | play (w : WavUrl)
  | revoke (w : WavUrl)
  | pauseAudio (w : WavUrl)
  | setSpeaking (b : Bool)
  | raise
deriving DecidableEq

/-- The hook's shared mutable state: `isSpeaking` React state and the
`playSessionRef` counter. -/
structure QueueState where
  isSpeaking : Bool
  playSession : Nat
deriving DecidableEq

/-- `stop`: increments the session counter and clears `isSpeaking`. -/
def stop (s : QueueState) : QueueState :=
  { isSpeaking := false, playSession := s.playSession + 1 }

/-- The `for (const clip of clips)` loop of `playClips`, run with captured
session id `sid`.  `counterAt i` is the value of `playSessionRef.current`
during synchronous slice `i` of the run (slice `i` begins when the await on
clip `i - 1` resolves; slice `0` is the synchronous prefix of the call).
`ok i` tells whether the awaited playback of the clip started in slice `i`
ends in `onended` (`true`) or in an error/rejection (`false`).

Per iteration: the loop-head check `playSessionRef.current !== sessionId`
reads the counter; on mismatch the loop breaks and the trailing
`if (playSessionRef.current === sessionId)` re-reads it in the same slice,
so it is the same value and the final `setIsSpeaking(false)` is skipped.
On match the clip's URL is built, its playback awaited inside
`try { ... } finally { URL.revokeObjectURL(url) }`; a rejection propagates
(`raise`) after the `finally`, skipping the rest of the loop and the final
check. -/
def runLoop (sid : Nat) (counterAt : Nat → Nat) (ok : Nat → Bool) :
    List PcmClip → Nat → List Ev
  | [], i => if counterAt i = sid then [Ev.setSpeaking false] else []
  | c :: rest, i =>
    if counterAt i = sid then
      if ok i then
        Ev.play (decodeClip c) :: Ev.revoke (decodeClip c) ::
          runLoop sid counterAt ok rest (i + 1)
      else
        [Ev.play (decodeClip c), Ev.revoke (decodeClip c), Ev.raise]
    else []

/-- Result of invoking `playClips` when the counter currently reads `c`:
the counter value right after the synchronous start of the call, the
captured session id, and the event trace of the invocation. -/
structure PlayStart where
  counter : Nat
  sessionId : Nat
  events : List Ev
deriving DecidableEq

/-- `playClips(clips)`: returns at once on an empty list (before touching
the counter); otherwise captures `sessionId = ++playSessionRef.current`,
sets `isSpeaking`, and runs the loop.  The first loop-head check happens in
the same synchronous slice as the increment, so `counterAt 0 = c + 1` for
the real environment; theorems take that as a hypothesis where needed. -/
def playClips (c : Nat) (counterAt : Nat → Nat) (ok : Nat → Bool)
    (clips : List PcmClip) : PlayStart :=
  if clips.isEmpty then ⟨c, c, []⟩
  else ⟨c + 1, c + 1, Ev.setSpeaking true :: runLoop (c + 1) counterAt ok clips 0⟩

/-- Number of clips whose playback is started in a trace. -/
def countPlays (t : List Ev) : Nat :=
  t.countP fun e => match e with | Ev.play _ => true | _ => false

/-- Number of object-URL revocations in a trace. -/
def countRevokes (t : List Ev) : Nat :=
  t.countP fun e => match e with | Ev.revoke _ => true | _ => false

/-- Spec-side reference trace ("plays them one at a time in order, awaiting
completion (or error) of each before advancing"): each clip in list order
contributes play-then-revoke; the first failure adds the propagated
rejection and ends the sequence; full completion clears the speaking flag. -/
def seqTrace (ok : Nat → Bool) : List PcmClip → Nat → List Ev
  | [], _ => [Ev.setSpeaking false]
  | c :: rest, i =>
    if ok i then
      Ev.play (decodeClip c) :: Ev.revoke (decodeClip c) :: seqTrace ok rest (i + 1)
    else
      [Ev.play (decodeClip c), Ev.revoke (decodeClip c), Ev.raise]

/-- The play/revoke trace of a list of clips that all complete. -/
def playedOk (clips : List PcmClip) : List Ev :=
  (clips.map fun c => [Ev.play (decodeClip c), Ev.revoke (decodeClip c)]).flatten

theorem countPlays_cons_play (w : WavUrl) (t : List Ev) :
    countPlays (Ev.play w :: t) = countPlays t + 1 := by
  simp [countPlays, List.countP_cons]

theorem countPlays_cons_revoke (w : WavUrl) (t : List Ev) :
    countPlays (Ev.revoke w :: t) = countPlays t := by
  simp [countPlays, List.countP_cons]

theorem countRevokes_cons_play (w : WavUrl) (t : List Ev) :
    countRevokes (Ev.play w :: t) = countRevokes t := by
  simp [countRevokes, List.countP_cons]

theorem countRevokes_cons_revoke (w : WavUrl) (t : List Ev) :
    countRevokes (Ev.revoke w :: t) = countRevokes t + 1 := by
  simp [countRevokes, List.countP_cons]

/-- A mismatching loop-head check stops the loop at once with no event. -/
theorem runLoop_break (sid : Nat) (counterAt : Nat → Nat) (ok : Nat → Bool)
    (clips : List PcmClip) (i : Nat) (h : counterAt i ≠ sid) :
    runLoop sid counterAt ok clips i = [] := by
  cases clips with
  | nil => simp [runLoop, h]
  | cons c rest => simp [runLoop, h]

/-- If the counter observed in slice `i + j` differs from the session id,
at most `j` clips are played from slice `i` on. -/
theorem countPlays_le (sid : Nat) (counterAt : Nat → Nat) (ok : Nat → Bool) :
    ∀ (clips : List PcmClip) (i j : Nat), counterAt (i + j) ≠ sid →
      countPlays (runLoop sid counterAt ok clips i) ≤ j := by
  intro clips
  induction clips with
  | nil =>
    intro i j _
    by_cases hc : counterAt i = sid <;> simp [runLoop, hc, countPlays]
  | cons c rest ih =>
    intro i j h
    by_cases hc : counterAt i = sid
    · cases j with
      | zero => exact absurd hc (by simpa using h)
      | succ j' =>
        by_cases hok : ok i
        · have hrest : counterAt ((i + 1) + j') ≠ sid := by
            have heq : (i + 1) + j' = i + (j' + 1) := by omega
            rw [heq]; exact h
          have hle := ih (i + 1) j' hrest
          have hrw : runLoop sid counterAt ok (c :: rest) i =
              Ev.play (decodeClip c) :: Ev.revoke (decodeClip c) ::
                runLoop sid counterAt ok rest (i + 1) := by
            simp [runLoop, hc, hok]
          rw [hrw, countPlays_cons_play, countPlays_cons_revoke]
          omega
        · simp [runLoop, hc, hok, countPlays, List.countP_cons]
    · simp [runLoop_break sid counterAt ok (c :: rest) i hc, countPlays]

/-- The hook never pauses a clip's audio element. -/
theorem pause_not_mem (sid : Nat) (counterAt : Nat → Nat) (ok : Nat → Bool) :
    ∀ (clips : List PcmClip) (i : Nat) (w : WavUrl),
      Ev.pauseAudio w ∉ runLoop sid counterAt ok clips i := by
  intro clips
  induction clips with
  | nil =>
    intro i w
    by_cases hc : counterAt i = sid <;> simp [runLoop, hc]
  | cons c rest ih =>
    intro i w
    by_cases hc : counterAt i = sid
    · by_cases hok : ok i
      · simp only [runLoop, hc, if_true, hok]
        intro hmem
        simp only [List.mem_cons] at hmem
        rcases hmem with h | h | h
        · exact Ev.noConfusion h
        · exact Ev.noConfusion h
        · exact ih (i + 1) w h
      · simp [runLoop, hc, hok]
    · simp [runLoop_break sid counterAt ok (c :: rest) i hc]

/-- Every clip whose playback starts has its object URL revoked. -/
theorem countRevokes_eq_countPlays (sid : Nat) (counterAt : Nat → Nat)
    (ok : Nat → Bool) :
    ∀ (clips : List PcmClip) (i : Nat),
      countRevokes (runLoop sid counterAt ok clips i) =
        countPlays (runLoop sid counterAt ok clips i) := by
  intro clips
  induction clips with
  | nil =>
    intro i
    by_cases hc : counterAt i = sid <;> simp [runLoop, hc, countPlays, countRevokes]
  | cons c rest ih =>
    intro i
    by_cases hc : counterAt i = sid
    · by_cases hok : ok i
      · have hrw : runLoop sid counterAt ok (c :: rest) i =
            Ev.play (decodeClip c) :: Ev.revoke (decodeClip c) ::
              runLoop sid counterAt ok rest (i + 1) := by
          simp [runLoop, hc, hok]
        rw [hrw, countRevokes_cons_play, countRevokes_cons_revoke,
          countPlays_cons_play, countPlays_cons_revoke, ih (i + 1)]
      · simp [runLoop, hc, hok, countPlays, countRevokes, List.countP_cons]
    · simp [runLoop_break sid counterAt ok (c :: rest) i hc, countPlays, countRevokes]

/-- In an undisturbed environment (every observed counter equals the
session id) the loop produces exactly the sequential reference trace. -/
theorem runLoop_eq_seqTrace (sid : Nat) (counterAt : Nat → Nat) (ok : Nat → Bool)
    (hq : ∀ j, counterAt j = sid) :
    ∀ (clips : List PcmClip) (i : Nat),
      runLoop sid counterAt ok clips i = seqTrace ok clips i := by
  intro clips
  induction clips with
  | nil => intro i; simp [runLoop, seqTrace, hq i]
  | cons c rest ih =>
    intro i
    by_cases hok : ok i
    · simp [runLoop, seqTrace, hq i, hok, ih (i + 1)]
    · simp [runLoop, seqTrace, hq i, hok]

/-- The speaking flag is cleared by the run only if the counter still
equals the session id at the final check (slice `i + clips.length`). -/
theorem clear_implies_active (sid : Nat) (counterAt : Nat → Nat) (ok : Nat → Bool) :
    ∀ (clips : List PcmClip) (i : Nat),
      Ev.setSpeaking false ∈ runLoop sid counterAt ok clips i →
        counterAt (i + clips.length) = sid := by
  intro clips
  induction clips with
  | nil =>
    intro i hmem
    by_cases hc : counterAt i = sid
    · simpa using hc
    · rw [runLoop_break sid counterAt ok [] i hc] at hmem
      exact absurd hmem (List.not_mem_nil _)
  | cons c rest ih =>
    intro i hmem
    by_cases hc : counterAt i = sid
    · by_cases hok : ok i
      · simp only [runLoop, hc, if_true, hok, List.mem_cons] at hmem
        rcases hmem with h | h | h
        · exact Ev.noConfusion h
        · exact Ev.noConfusion h
        · have hact := ih (i + 1) h
          have harith : (i + 1) + rest.length = i + (c :: rest).length := by
            rw [List.length_cons]; omega
          rwa [harith] at hact
      · simp [runLoop, hc, hok] at hmem
    · rw [runLoop_break sid counterAt ok (c :: rest) i hc] at hmem
      exact absurd hmem (List.not_mem_nil _)

/-- If the clip started in slice `i + m` fails, at most `m + 1` clips are
played from slice `i` on: the sequence aborts at the failure. -/
theorem countPlays_le_of_fail (sid : Nat) (counterAt : Nat → Nat) (ok : Nat → Bool) :
    ∀ (clips : List PcmClip) (i m : Nat), ok (i + m) = false →
      countPlays (runLoop sid counterAt ok clips i) ≤ m + 1 := by
  intro clips
  induction clips with
  | nil =>
    intro i m _
    by_cases hc : counterAt i = sid <;> simp [runLoop, hc, countPlays]
  | cons c rest ih =>
    intro i m h
    by_cases hc : counterAt i = sid
    · by_cases hok : ok i
      · cases m with
        | zero =>
          rw [Nat.add_zero] at h
          rw [h] at hok
          exact absurd hok (by simp)
        | succ m' =>
          have hrest : ok ((i + 1) + m') = false := by
            have heq : (i + 1) + m' = i + (m' + 1) := by omega
            rw [heq]; exact h
          have hle := ih (i + 1) m' hrest
          have hrw : runLoop sid counterAt ok (c :: rest) i =
              Ev.play (decodeClip c) :: Ev.revoke (decodeClip c) ::
                runLoop sid counterAt ok rest (i + 1) := by
            simp [runLoop, hc, hok]
          rw [hrw, countPlays_cons_play, countPlays_cons_revoke]
          omega
      · simp [runLoop, hc, hok, countPlays, List.countP_cons]
    · simp [runLoop_break sid counterAt ok (c :: rest) i hc, countPlays]

/-- Exact trace of a run whose first failing clip is at offset
`pre.length`: the clips of `pre` play and complete in order, the failing
clip plays once, its URL is revoked, the rejection propagates, and nothing
of `post` is played. -/
theorem runLoop_fail_trace (sid : Nat) (counterAt : Nat → Nat) (ok : Nat → Bool)
    (hq : ∀ j, counterAt j = sid) :
    ∀ (pre : List PcmClip) (c : PcmClip) (post : List PcmClip) (i : Nat),
      (∀ j, j < pre.length → ok (i + j) = true) → ok (i + pre.length) = false →
      runLoop sid counterAt ok (pre ++ c :: post) i =
        playedOk pre ++
          [Ev.play (decodeClip c), Ev.revoke (decodeClip c), Ev.raise] := by
  intro pre
  induction pre with
  | nil =>
    intro c post i _ hfail
    simp only [List.length_nil, Nat.add_zero] at hfail
    simp [runLoop, hq i, hfail, playedOk]
  | cons p rest ih =>
    intro c post i hpre hfail
    have hok : ok i = true := by
      have h0 := hpre 0 (by simp)
      simpa using h0
    have hpre' : ∀ j, j < rest.length → ok ((i + 1) + j) = true := by
      intro j hj
      have heq : (i + 1) + j = i + (j + 1) := by omega
      rw [heq]
      exact hpre (j + 1) (by simpa using Nat.succ_lt_succ hj)
    have hfail' : ok ((i + 1) + rest.length) = false := by
      have heq : (i + 1) + rest.length = i + (p :: rest).length := by
        rw [List.length_cons]; omega
      rw [heq]; exact hfail
    have hrw : runLoop sid counterAt ok ((p :: rest) ++ c :: post) i =
        Ev.play (decodeClip p) :: Ev.revoke (decodeClip p) ::
          runLoop sid counterAt ok (rest ++ c :: post) (i + 1) := by
      simp [runLoop, hq i, hok]
    rw [hrw, ih c post (i + 1) hpre' hfail']
    simp [playedOk]

/-- When every awaited playback completes, the sequential reference trace
is exactly the in-order play/revoke pairs followed by the final clear. -/
theorem seqTrace_all_ok (ok : Nat → Bool) (hok : ∀ j, ok j = true) :
    ∀ (clips : List PcmClip) (i : Nat),
      seqTrace ok clips i = playedOk clips ++ [Ev.setSpeaking false] := by
  intro clips
  induction clips with
  | nil => intro i; simp [seqTrace, playedOk]
  | cons c rest ih => intro i; simp [seqTrace, hok i, ih (i + 1), playedOk]

/-- C1: calling `stop`, or starting `playClips` on a non-empty list,
increments the session counter.  A sequence whose loop-head check observes
a counter different from its captured session id stops at once (it emits
nothing further), so if slice `i` observes a mismatch the whole run plays
at most `i` clips; the hook never pauses a clip's audio element, and every
started clip's object URL is revoked (nothing else is done to it). -/
theorem c1_session_cancellation :
    (∀ s : QueueState, (stop s).playSession = s.playSession + 1 ∧
      (stop s).isSpeaking = false) ∧
    (∀ (c : Nat) (counterAt : Nat → Nat) (ok : Nat → Bool) (clips : List PcmClip),
      clips ≠ [] → (playClips c counterAt ok clips).counter = c + 1) ∧
    (∀ (sid : Nat) (counterAt : Nat → Nat) (ok : Nat → Bool)
       (clips : List PcmClip) (i : Nat),
      counterAt i ≠ sid → runLoop sid counterAt ok clips i = []) ∧
    (∀ (sid : Nat) (counterAt : Nat → Nat) (ok : Nat → Bool)
       (clips : List PcmClip) (i : Nat),
      counterAt i ≠ sid → countPlays (runLoop sid counterAt ok clips 0) ≤ i) ∧
    (∀ (sid : Nat) (counterAt : Nat → Nat) (ok : Nat → Bool)
       (clips : List PcmClip) (i : Nat) (w : WavUrl),
      Ev.pauseAudio w ∉ runLoop sid counterAt ok clips i) ∧
    (∀ (sid : Nat) (counterAt : Nat → Nat) (ok : Nat → Bool)
       (clips : List PcmClip) (i : Nat),
      countRevokes (runLoop sid counterAt ok clips i) =
        countPlays (runLoop sid counterAt ok clips i)) := by
  refine ⟨fun s => ⟨rfl, rfl⟩, ?_, ?_, ?_, ?_, ?_⟩
  · intro c counterAt ok clips hne
    cases clips with
    | nil => exact absurd rfl hne
    | cons a l => simp [playClips]
  · intro sid counterAt ok clips i h
    exact runLoop_break sid counterAt ok clips i h
  · intro sid counterAt ok clips i h
    have h0 : counterAt (0 + i) ≠ sid := by rwa [Nat.zero_add]
    exact countPlays_le sid counterAt ok clips 0 i h0
  · intro sid counterAt ok clips i w
    exact pause_not_mem sid counterAt ok clips i w
  · intro sid counterAt ok clips i
    exact countRevokes_eq_countPlays sid counterAt ok clips i

theorem c1_session_cancellation_witness :
    (stop ⟨true, 5⟩).playSession = 5 + 1 ∧
    (playClips 0 (fun _ => 1) (fun _ => true)
        [⟨"k", none, "QUJD", none⟩]).counter = 0 + 1 ∧
    runLoop 1 (fun _ => 2) (fun _ => true) [⟨"k", none, "QUJD", none⟩] 0 = [] ∧
    countPlays (runLoop 1 (fun _ => 2) (fun _ => true)
        [⟨"k", none, "QUJD", none⟩] 0) ≤ 0 :=
  ⟨(c1_session_cancellation.1 ⟨true, 5⟩).1,
   c1_session_cancellation.2.1 0 (fun _ => 1) (fun _ => true)
     [⟨"k", none, "QUJD", none⟩] (by simp),
   c1_session_cancellation.2.2.1 1 (fun _ => 2) (fun _ => true)
     [⟨"k", none, "QUJD", none⟩] 0 (by decide),
   c1_session_cancellation.2.2.2.1 1 (fun _ => 2) (fun _ => true)
     [⟨"k", none, "QUJD", none⟩] 0 (by decide)⟩

/-- C2: every clip is decoded with `pcm16Base64ToWavUrl` from its base64
payload and its sample rate, defaulting to 24000 when absent; and a
non-empty `playClips` call, undisturbed by cancellation, emits exactly the
sequential trace: clip after clip in list order, each one's completion (or
error) awaited — its URL revoked — before the next starts, with the
speaking flag set first and cleared after the last clip when all complete. -/
theorem c2_sequential_playback :
    (∀ c : PcmClip,
      decodeClip c = pcm16Base64ToWavUrl c.audioBase64 (c.sampleRate.getD 24000)) ∧
    (∀ (c : Nat) (counterAt : Nat → Nat) (ok : Nat → Bool) (clips : List PcmClip),
      clips ≠ [] → (∀ j, counterAt j = c + 1) →
      (playClips c counterAt ok clips).events =
        Ev.setSpeaking true :: seqTrace ok clips 0) ∧
    (∀ (ok : Nat → Bool) (clips : List PcmClip),
      (∀ j, ok j = true) →
      seqTrace ok clips 0 = playedOk clips ++ [Ev.setSpeaking false]) := by
  refine ⟨fun c => rfl, ?_, ?_⟩
  · intro c counterAt ok clips hne hq
    cases clips with
    | nil => exact absurd rfl hne
    | cons a l =>
      simp only [playClips, List.isEmpty_cons, if_false, Bool.false_eq_true]
      rw [runLoop_eq_seqTrace (c + 1) counterAt ok hq (a :: l) 0]
  · intro ok clips hok
    exact seqTrace_all_ok ok hok clips 0

theorem c2_sequential_playback_witness :
    (playClips 0 (fun _ => 1) (fun _ => true)
        [⟨"a", none, "QUJD", some 16000⟩, ⟨"b", none, "RUZH", none⟩]).events =
      [Ev.setSpeaking true,
       Ev.play ⟨"QUJD", 16000⟩, Ev.revoke ⟨"QUJD", 16000⟩,
       Ev.play ⟨"RUZH", 24000⟩, Ev.revoke ⟨"RUZH", 24000⟩,
       Ev.setSpeaking false] :=
  (c2_sequential_playback.2.1 0 (fun _ => 1) (fun _ => true)
    [⟨"a", none, "QUJD", some 16000⟩, ⟨"b", none, "RUZH", none⟩]
    (by simp) (fun _ => rfl)).trans (by decide)

/-- C3: two playback sequences started at different counter values capture
distinct session ids; a run only starts its `j`-th clip in a slice whose
observed counter equals its own session id; and a run clears the speaking
flag only if the counter at its final check still equals its session id —
so at most the most recently started sequence advances clips or clears
`isSpeaking`. -/
theorem c3_single_active_sequence :
    (∀ (c₁ c₂ : Nat) (counterAt₁ counterAt₂ : Nat → Nat) (ok₁ ok₂ : Nat → Bool)
       (clips₁ clips₂ : List PcmClip),
      clips₁ ≠ [] → clips₂ ≠ [] → c₁ ≠ c₂ →
      (playClips c₁ counterAt₁ ok₁ clips₁).sessionId ≠
        (playClips c₂ counterAt₂ ok₂ clips₂).sessionId) ∧
    (∀ (sid : Nat) (counterAt : Nat → Nat) (ok : Nat → Bool)
       (clips : List PcmClip) (i j : Nat),
      j < countPlays (runLoop sid counterAt ok clips i) → counterAt (i + j) = sid) ∧
    (∀ (sid : Nat) (counterAt : Nat → Nat) (ok : Nat → Bool)
       (clips : List PcmClip) (i : Nat),
      Ev.setSpeaking false ∈ runLoop sid counterAt ok clips i →
        counterAt (i + clips.length) = sid) := by
  refine ⟨?_, ?_, ?_⟩
  · intro c₁ c₂ counterAt₁ counterAt₂ ok₁ ok₂ clips₁ clips₂ h₁ h₂ hne
    cases clips₁ with
    | nil => exact absurd rfl h₁
    | cons a₁ l₁ =>
      cases clips₂ with
      | nil => exact absurd rfl h₂
      | cons a₂ l₂ =>
        simp only [playClips, List.isEmpty_cons, if_false, Bool.false_eq_true]
        omega
  · intro sid counterAt ok clips i j hj
    by_contra hne
    exact Nat.lt_irrefl _
      (Nat.lt_of_lt_of_le hj (countPlays_le sid counterAt ok clips i j hne))
  · intro sid counterAt ok clips i hmem
    exact clear_implies_active sid counterAt ok clips i hmem

theorem c3_single_active_sequence_witness :
    (playClips 0 (fun _ => 1) (fun _ => true) [⟨"k", none, "QUJD", none⟩]).sessionId ≠
      (playClips 1 (fun _ => 2) (fun _ => true) [⟨"k", none, "QUJD", none⟩]).sessionId :=
  c3_single_active_sequence.1 0 1 (fun _ => 1) (fun _ => 2) (fun _ => true)
    (fun _ => true) [⟨"k", none, "QUJD", none⟩] [⟨"k", none, "QUJD", none⟩]
    (by simp) (by simp) (by decide)

/-- C4: if the clip at offset `pre.length` of an undisturbed sequence fails
to play, the trace is exactly: speaking set, the clips of `pre` played and
revoked in order, the failing clip played once and revoked, and the
rejection propagated — no clip after the failure is played and the failed
clip is not retried.  In any environment, a failure of the clip started in
slice `i + m` bounds the number of plays from slice `i` by `m + 1`. -/
theorem c4_error_aborts_sequence :
    (∀ (c : Nat) (counterAt : Nat → Nat) (ok : Nat → Bool)
       (pre : List PcmClip) (cl : PcmClip) (post : List PcmClip),
      (∀ j, counterAt j = c + 1) →
      (∀ j, j < pre.length → ok j = true) → ok pre.length = false →
      (playClips c counterAt ok (pre ++ cl :: post)).events =
        Ev.setSpeaking true :: (playedOk pre ++
          [Ev.play (decodeClip cl), Ev.revoke (decodeClip cl), Ev.raise])) ∧
    (∀ (sid : Nat) (counterAt : Nat → Nat) (ok : Nat → Bool)
       (clips : List PcmClip) (i m : Nat),
      ok (i + m) = false →
      countPlays (runLoop sid counterAt ok clips i) ≤ m + 1) := by
  refine ⟨?_, ?_⟩
  · intro c counterAt ok pre cl post hq hpre hfail
    have hne : (pre ++ cl :: post).isEmpty = false := by
      cases pre <;> simp
    simp only [playClips, hne, if_false, Bool.false_eq_true]
    have hpre0 : ∀ j, j < pre.length → ok (0 + j) = true := by
      intro j hj; rw [Nat.zero_add]; exact hpre j hj
    have hfail0 : ok (0 + pre.length) = false := by
      rw [Nat.zero_add]; exact hfail
    rw [runLoop_fail_trace (c + 1) counterAt ok hq pre cl post 0 hpre0 hfail0]
  · intro sid counterAt ok clips i m h
    exact countPlays_le_of_fail sid counterAt ok clips i m h

theorem c4_error_aborts_sequence_witness :
    (playClips 0 (fun _ => 1) (fun j => decide (j = 0))
        ([⟨"a", none, "QUJD", some 16000⟩] ++
          ⟨"b", none, "RUZH", none⟩ :: [⟨"c", none, "SUpL", none⟩])).events =
      [Ev.setSpeaking true,
       Ev.play ⟨"QUJD", 16000⟩, Ev.revoke ⟨"QUJD", 16000⟩,
       Ev.play ⟨"RUZH", 24000⟩, Ev.revoke ⟨"RUZH", 24000⟩,
       Ev.raise] :=
  (c4_error_aborts_sequence.1 0 (fun _ => 1) (fun j => decide (j = 0))
    [⟨"a", none, "QUJD", some 16000⟩] ⟨"b", none, "RUZH", none⟩
    [⟨"c", none, "SUpL", none⟩] (fun _ => rfl)
    (by intro j hj
        have hj0 : j = 0 := Nat.lt_one_iff.mp (by simpa using hj)
        subst hj0
        rfl)
    (by decide)).trans (by decide)

end AudioQueue

namespace Player

/- Source: `SafeAudioPlayer` in `src/components/test-list/BookSectionNew.tsx`. -/

/-- The component's `AudioState` union type. -/
inductive AudioState
  | loading
  | ready
  | playing
  | paused
  | fallback
  | error
deriving DecidableEq

/-- The state touched by the fallback logic: the `state` machine value and
the `usingFallback` flag. -/
structure FallbackPlayer where
  state : AudioState
  usingFallback : Bool
deriving DecidableEq

/-- `startFallbackTTS`: with no `fallbackText` it sets the error state and
reports; otherwise it sets `usingFallback`, builds the utterance, sets the
`fallback` state and speaks. -/
def startFallbackTTS (fallbackText : Option String) (p : FallbackPlayer) :
    FallbackPlayer :=
  match fallbackText with
  | none => { p with state := AudioState.error }
  | some _ => { p with usingFallback := true, state := AudioState.fallback }

/-- The `audio.onerror` handler: try the fallback when text is available,
otherwise set the error state. -/
def onAudioError (fallbackText : Option String) (p : FallbackPlayer) :
    FallbackPlayer :=
  match fallbackText with
  | some _ => startFallbackTTS fallbackText p
  | none => { p with state := AudioState.error }

/-- The `.catch` of the `fetch(audioUrl, { method: "HEAD" })` reachability
check: when text is available it cancels the audio load and starts the
fallback; when no text is available the handler does nothing. -/
def onHeadCheckFail (fallbackText : Option String) (p : FallbackPlayer) :
    FallbackPlayer :=
  match fallbackText with
  | some _ => startFallbackTTS fallbackText p
  | none => p

/-- C5 counterexample: a HEAD reachability failure with no fallback text
leaves the player unchanged (here: still `loading`); it does not
transition to the error state as the claim requires. -/
theorem c5_head_check_counterexample :
    onHeadCheckFail none ⟨AudioState.loading, false⟩ =
      ⟨AudioState.loading, false⟩ ∧
    (onHeadCheckFail none ⟨AudioState.loading, false⟩).state ≠
      AudioState.error := by
  decide

/-- C5 (amended): whenever fallback text is available, both an audio
element error and a HEAD reachability failure transition the player to the
synthesized-speech fallback (state `fallback`, `usingFallback` set); with
no fallback text, an audio element error (or invoking `startFallbackTTS`
itself) transitions to the error state, while a HEAD reachability failure
alone leaves the player state unchanged. -/
theorem c5_fallback_transitions :
    (∀ (t : String) (p : FallbackPlayer),
      (onAudioError (some t) p).state = AudioState.fallback ∧
      (onAudioError (some t) p).usingFallback = true ∧
      (onHeadCheckFail (some t) p).state = AudioState.fallback ∧
      (onHeadCheckFail (some t) p).usingFallback = true) ∧
    (∀ p : FallbackPlayer,
      (onAudioError none p).state = AudioState.error ∧
      (startFallbackTTS none p).state = AudioState.error ∧
      onHeadCheckFail none p = p) := by
  refine ⟨fun t p => ⟨rfl, rfl, rfl, rfl⟩, fun p => ⟨rfl, rfl, rfl⟩⟩

/- Voice selection (`getBestVoice`). -/

/-- A speech-synthesis voice: its display name and BCP-47 language tag. -/
structure Voice where
  name : String
  lang : String
deriving DecidableEq

/-- JavaScript `s.includes(pat)`: substring containment. -/
def strContains (s pat : String) : Bool :=
  (List.range (s.toList.length + 1)).any fun i =>
    pat.toList.isPrefixOf (s.toList.drop i)

/-- JavaScript `s.startsWith(pat)`. -/
def strStartsWith (s pat : String) : Bool :=
  pat.toList.isPrefixOf s.toList

/-- A "high-quality" voice name: contains Google, Microsoft, or Natural. -/
def isHighQuality (v : Voice) : Bool :=
  strContains v.name "Google" || strContains v.name "Microsoft" ||
    strContains v.name "Natural"

/-- The `accentMap` record literal of `getBestVoice`. -/
def accentMap (h : String) : Option (List String) :=
  if h = "US" then some ["en-US", "en_US"]
  else if h = "GB" then some ["en-GB", "en_GB", "en-UK"]
  else if h = "AU" then some ["en-AU", "en_AU"]
  else if h = "IN" then some ["en-IN", "en_IN"]
  else none

/-- `accentHint ? accentMap[accentHint] || ["en-US"] : ["en-US"]` (an
absent hint, an unknown hint, and the falsy empty string all yield
`["en-US"]`). -/
def preferredLangs (accentHint : Option String) : List String :=
  match accentHint with
  | none => ["en-US"]
  | some h => (accentMap h).getD ["en-US"]

/-- JavaScript `l.replace("_", "-")` with a string pattern replaces only
the first occurrence of the one-character pattern. -/
def replaceFirstUnderscore : List Char → List Char
  | [] => []
  | c :: rest => if c = '_' then '-' :: rest else c :: replaceFirstUnderscore rest

/-- `preferredLangs.some(l => v.lang.includes(l.replace("_", "-")))`. -/
def accentMatches (accentHint : Option String) (v : Voice) : Bool :=
  (preferredLangs accentHint).any fun l =>
    strContains v.lang (String.mk (replaceFirstUnderscore l.toList))

/-- `v.lang.startsWith("en")`. -/
def isEnglish (v : Voice) : Bool :=
  strStartsWith v.lang "en"

/-- Priority 1: accent-matched and high-quality. -/
def accentHQ (accentHint : Option String) (v : Voice) : Bool :=
  accentMatches accentHint v && isHighQuality v

/-- Priority 3: any high-quality English voice. -/
def englishHQ (v : Voice) : Bool :=
  isEnglish v && isHighQuality v

/-- `getBestVoice`: empty voice list returns null; otherwise the first
voice satisfying the highest non-empty priority, falling back to the first
voice. -/
def getBestVoice (voices : List Voice) (accentHint : Option String) :
    Option Voice :=
  if voices.isEmpty then none
  else
    match voices.find? (accentHQ accentHint) with
    | some v => some v
    | none =>
      match voices.find? (accentMatches accentHint) with
      | some v => some v
      | none =>
        match voices.find? englishHQ with
        | some v => some v
        | none =>
          match voices.find? isEnglish with
          | some v => some v
          | none => voices.head?

/-- A non-empty voice list always yields a voice. -/
theorem getBestVoice_isSome (voices : List Voice) (accentHint : Option String)
    (h : voices ≠ []) : (getBestVoice voices accentHint).isSome = true := by
  have hne : voices.isEmpty = false := by
    cases voices with
    | nil => exact absurd rfl h
    | cons a l => rfl
  unfold getBestVoice
  rw [hne]
  simp only [Bool.false_eq_true, if_false]
  cases h1 : voices.find? (accentHQ accentHint) with
  | some v => rfl
  | none =>
    cases h2 : voices.find? (accentMatches accentHint) with
    | some v => rfl
    | none =>
      cases h3 : voices.find? englishHQ with
      | some v => rfl
      | none =>
        cases h4 : voices.find? isEnglish with
        | some v => rfl
        | none =>
          cases voices with
          | nil => exact absurd rfl h
          | cons a l => rfl

/-- C6: `getBestVoice` returns null exactly on an empty voice list, and
otherwise follows the fixed priority cascade: the first accent-matched
high-quality voice; else the first accent-matched voice; else the first
high-quality English voice; else the first English voice; else the first
available voice. -/
theorem c6_voice_priority (voices : List Voice) (accentHint : Option String) :
    (getBestVoice voices accentHint = none ↔ voices = []) ∧
    ((∃ v ∈ voices, accentHQ accentHint v = true) →
      getBestVoice voices accentHint = voices.find? (accentHQ accentHint)) ∧
    ((∀ v ∈ voices, accentHQ accentHint v = false) →
      (∃ v ∈ voices, accentMatches accentHint v = true) →
      getBestVoice voices accentHint = voices.find? (accentMatches accentHint)) ∧
    ((∀ v ∈ voices, accentHQ accentHint v = false) →
      (∀ v ∈ voices, accentMatches accentHint v = false) →
      (∃ v ∈ voices, englishHQ v = true) →
      getBestVoice voices accentHint = voices.find? englishHQ) ∧
    ((∀ v ∈ voices, accentHQ accentHint v = false) →
      (∀ v ∈ voices, accentMatches accentHint v = false) →
      (∀ v ∈ voices, englishHQ v = false) →
      (∃ v ∈ voices, isEnglish v = true) →
      getBestVoice voices accentHint = voices.find? isEnglish) ∧
    ((∀ v ∈ voices, accentHQ accentHint v = false) →
      (∀ v ∈ voices, accentMatches accentHint v = false) →
      (∀ v ∈ voices, englishHQ v = false) →
      (∀ v ∈ voices, isEnglish v = false) →
      getBestVoice voices accentHint = voices.head?) := by
  have hfind : ∀ (p : Voice → Bool), (∀ v ∈ voices, p v = false) →
      voices.find? p = none := by
    intro p hp
    rw [List.find?_eq_none]
    intro v hv
    simp [hp v hv]
  have hsome : ∀ (p : Voice → Bool), (∃ v ∈ voices, p v = true) →
      ∃ w, voices.find? p = some w := by
    intro p hp
    have : (voices.find? p).isSome = true := by
      rw [List.find?_isSome]
      obtain ⟨v, hv, hpv⟩ := hp
      exact ⟨v, hv, hpv⟩
    exact Option.isSome_iff_exists.mp this
  have hne_of_mem : ∀ (p : Voice → Bool), (∃ v ∈ voices, p v = true) →
      voices.isEmpty = false := by
    intro p hp
    obtain ⟨v, hv, _⟩ := hp
    cases voices with
    | nil => exact absurd hv (List.not_mem_nil v)
    | cons a l => rfl
  refine ⟨?_, ?_, ?_, ?_, ?_, ?_⟩
  · constructor
    · intro h
      by_contra hne
      have := getBestVoice_isSome voices accentHint hne
      rw [h] at this
      exact Bool.noConfusion this
    · intro h
      subst h
      rfl
  · intro hex
    obtain ⟨w, hw⟩ := hsome _ hex
    simp [getBestVoice, hne_of_mem _ hex, hw]
  · intro h1 hex
    obtain ⟨w, hw⟩ := hsome _ hex
    simp [getBestVoice, hne_of_mem _ hex, hfind _ h1, hw]
  · intro h1 h2 hex
    obtain ⟨w, hw⟩ := hsome _ hex
    simp [getBestVoice, hne_of_mem _ hex, hfind _ h1, hfind _ h2, hw]
  · intro h1 h2 h3 hex
    obtain ⟨w, hw⟩ := hsome _ hex
    simp [getBestVoice, hne_of_mem _ hex, hfind _ h1, hfind _ h2, hfind _ h3, hw]
  · intro h1 h2 h3 h4
    by_cases hne : voices = []
    · subst hne
      rfl
    · have hempty : voices.isEmpty = false := by
        cases voices with
        | nil => exact absurd rfl hne
        | cons a l => rfl
      simp [getBestVoice, hempty, hfind _ h1, hfind _ h2, hfind _ h3, hfind _ h4]

theorem c6_voice_priority_witness :
    getBestVoice
      [⟨"Daniel", "en-GB"⟩, ⟨"Google US English", "en-US"⟩]
      (some "US") = some ⟨"Google US English", "en-US"⟩ :=
  ((c6_voice_priority
      [⟨"Daniel", "en-GB"⟩, ⟨"Google US English", "en-US"⟩]
      (some "US")).2.1 (by decide)).trans (by decide)

/- Seeking (`handleSeek`) and the seek slider. -/

/-- The audio element fields read and written by `handleSeek`. -/
structure AudioElem where
  duration : Rat
  currentTime : Rat
deriving DecidableEq

/-- The component state `handleSeek` and the slider depend on.  `audioEl`
is `audioRef.current` (null before an element is created). -/
structure PlayerUI where
  state : AudioState
  usingFallback : Bool
  progress : Rat
  audioEl : Option AudioElem
deriving DecidableEq

/-- `handleSeek(value)` with `value[0]` as `v`: a no-op while using the
fallback, or without an audio element, or with a zero (falsy) duration;
otherwise sets `currentTime = v / 100 * duration` and `progress = v`. -/
def handleSeek (s : PlayerUI) (v : Rat) : PlayerUI :=
  if s.usingFallback then s
  else
    match s.audioEl with
    | none => s
    | some a =>
      if a.duration = 0 then s
      else
        { s with
          audioEl := some { a with currentTime := v / 100 * a.duration },
          progress := v }

/-- The seek slider's `disabled` prop: `state === "loading" || usingFallback`. -/
def sliderDisabled (s : PlayerUI) : Bool :=
  decide (s.state = AudioState.loading) || s.usingFallback

/-- C8: while the player is in the synthesized-speech fallback, seeking is
a no-op — for every slider value `handleSeek` returns the state unchanged
(in particular `currentTime` and `progress` are untouched) — and the seek
slider is rendered disabled. -/
theorem c8_seek_noop_in_fallback (s : PlayerUI) (v : Rat)
    (h : s.usingFallback = true) :
    handleSeek s v = s ∧ sliderDisabled s = true := by
  constructor
  · simp [handleSeek, h]
  · simp [sliderDisabled, h]

theorem c8_seek_noop_in_fallback_witness :
    handleSeek ⟨AudioState.fallback, true, 7, some ⟨180, 3⟩⟩ 42 =
      ⟨AudioState.fallback, true, 7, some ⟨180, 3⟩⟩ ∧
    sliderDisabled ⟨AudioState.fallback, true, 7, some ⟨180, 3⟩⟩ = true :=
  c8_seek_noop_in_fallback ⟨AudioState.fallback, true, 7, some ⟨180, 3⟩⟩ 42 rfl

end Player

namespace Gemini

/- Source: `callGemini` in the explain-answer-followup edge function. -/

/-- Outcome of one fetch to the generative-language API for one model: a
non-ok HTTP response with its status, a thrown/rejected error, or an ok
response whose `candidates?.[0]?.content?.parts?.[0]?.text` is `text`
(`none` when the optional chain yields nothing). -/
inductive Outcome
  | httpError (status : Nat)
  | exn
  | success (text : Option String)
deriving DecidableEq

/-- The fixed fallback list `GEMINI_MODELS`. -/
def GEMINI_MODELS : List String :=
  ["gemini-2.5-flash", "gemini-2.0-flash", "gemini-1.5-flash"]

/-- The text the `if (text)` truthiness check accepts: present and
non-empty. -/
def usableText : Outcome → Option String
  | Outcome.success (some t) => if t = "" then none else some t
  | _ => none

/-- The model loop of `callGemini`: a non-ok response (429 or any other
status) continues with the next model, as does an exception or an ok
response without usable text; the first usable text is returned; when the
list is exhausted the function returns null. -/
def callGeminiOn (oracle : String → Outcome) : List String → Option String
  | [] => none
  | m :: rest =>
    match oracle m with
    | Outcome.httpError _ => callGeminiOn oracle rest
    | Outcome.exn => callGeminiOn oracle rest
    | Outcome.success t =>
      match t with
      | none => callGeminiOn oracle rest
      | some txt => if txt = "" then callGeminiOn oracle rest else some txt

/-- `callGemini` tries exactly the models of `GEMINI_MODELS`, in order. -/
def callGemini (oracle : String → Outcome) : Option String :=
  callGeminiOn oracle GEMINI_MODELS

theorem callGeminiOn_eq_none_iff (oracle : String → Outcome) :
    ∀ models : List String,
      callGeminiOn oracle models = none ↔
        ∀ m ∈ models, usableText (oracle m) = none := by
  intro models
  induction models with
  | nil => simp [callGeminiOn]
  | cons m rest ih =>
    cases ho : oracle m with
    | httpError st => simp [callGeminiOn, ho, ih, usableText]
    | exn => simp [callGeminiOn, ho, ih, usableText]
    | success t =>
      cases t with
      | none => simp [callGeminiOn, ho, ih, usableText]
      | some txt =>
        by_cases ht : txt = ""
        · simp [callGeminiOn, ho, ht, ih, usableText]
        · simp [callGeminiOn, ho, ht, ih, usableText]

theorem callGeminiOn_eq_some (oracle : String → Outcome) :
    ∀ (models : List String) (t : String),
      callGeminiOn oracle models = some t →
      ∃ pre m post, models = pre ++ m :: post ∧
        usableText (oracle m) = some t ∧
        ∀ m' ∈ pre, usableText (oracle m') = none := by
  intro models
  induction models with
  | nil => intro t h; exact absurd h (by simp [callGeminiOn])
  | cons m rest ih =>
    intro t h
    have step : ∀ (hrec : callGeminiOn oracle rest = some t),
        usableText (oracle m) = none →
        ∃ pre mm post, m :: rest = pre ++ mm :: post ∧
          usableText (oracle mm) = some t ∧
          ∀ m' ∈ pre, usableText (oracle m') = none := by
      intro hrec hnone
      obtain ⟨pre, mm, post, hsplit, hmm, hpre⟩ := ih t hrec
      refine ⟨m :: pre, mm, post, by rw [hsplit]; rfl, hmm, ?_⟩
      intro m' hm'
      rcases List.mem_cons.mp hm' with h' | h'
      · exact h' ▸ hnone
      · exact hpre m' h'
    cases ho : oracle m with
    | httpError st =>
      have hrec : callGeminiOn oracle rest = some t := by
        rw [callGeminiOn, ho] at h; exact h
      exact step hrec (by simp [usableText, ho])
    | exn =>
      have hrec : callGeminiOn oracle rest = some t := by
        rw [callGeminiOn, ho] at h; exact h
      exact step hrec (by simp [usableText, ho])
    | success tx =>
      cases tx with
      | none =>
        have hrec : callGeminiOn oracle rest = some t := by
          rw [callGeminiOn, ho] at h; exact h
        exact step hrec (by simp [usableText, ho])
      | some txt =>
        by_cases ht : txt = ""
        · have hrec : callGeminiOn oracle rest = some t := by
            rw [callGeminiOn, ho] at h
            simpa [ht] using h
          exact step hrec (by simp [usableText, ho, ht])
        · have heq : some txt = some t := by
            rw [callGeminiOn, ho] at h
            simpa [ht] using h
          have htt : txt = t := Option.some.inj heq
          subst htt
          exact ⟨[], m, rest, rfl, by simp [usableText, ho, ht],
            by intro m' hm'; exact absurd hm' (List.not_mem_nil m')⟩

/-- C7: `callGemini` tries `gemini-2.5-flash`, `gemini-2.0-flash`,
`gemini-1.5-flash` in that fixed order; it returns null iff every model in
the list fails or yields no usable text, and when it returns text, that
text comes from the first model in the list that succeeded with non-empty
text, all earlier models having failed or yielded none. -/
theorem c7_model_fallback :
    GEMINI_MODELS = ["gemini-2.5-flash", "gemini-2.0-flash", "gemini-1.5-flash"] ∧
    (∀ oracle : String → Outcome,
      callGemini oracle = none ↔
        ∀ m ∈ GEMINI_MODELS, usableText (oracle m) = none) ∧
    (∀ (oracle : String → Outcome) (t : String),
      callGemini oracle = some t →
      ∃ pre m post, GEMINI_MODELS = pre ++ m :: post ∧
        usableText (oracle m) = some t ∧
        ∀ m' ∈ pre, usableText (oracle m') = none) := by
  refine ⟨rfl, ?_, ?_⟩
  · intro oracle
    exact callGeminiOn_eq_none_iff oracle GEMINI_MODELS
  · intro oracle t h
    exact callGeminiOn_eq_some oracle GEMINI_MODELS t h

theorem c7_model_fallback_witness :
    ∃ pre m post,
      GEMINI_MODELS = pre ++ m :: post ∧
      usableText
        ((fun n => if n = "gemini-2.5-flash" then Outcome.httpError 429
          else if n = "gemini-2.0-flash" then Outcome.success (some "ok")
          else Outcome.exn) m) = some "ok" ∧
      ∀ m' ∈ pre,
        usableText
          ((fun n => if n = "gemini-2.5-flash" then Outcome.httpError 429
            else if n = "gemini-2.0-flash" then Outcome.success (some "ok")
            else Outcome.exn) m') = none :=
  c7_model_fallback.2.2
    (fun n => if n = "gemini-2.5-flash" then Outcome.httpError 429
      else if n = "gemini-2.0-flash" then Outcome.success (some "ok")
      else Outcome.exn)
    "ok" (by decide)

end Gemini

namespace AnalyzePerf

/- Source: the analyze-performance edge function's handling of the AI
gateway response content. -/

/-- An HTTP response as produced by the handler (status and JSON body). -/
structure HttpResponse where
  status : Nat
  body : String
deriving DecidableEq

def lbraceChar : Char := Char.ofNat 123

def rbraceChar : Char := Char.ofNat 125

/-- The greedy regex `content.match` against an open brace, any
characters, then a close brace: its match runs from the first open brace
to the last close brace, and there is no match when no close brace follows
the first open brace. -/
def jsonObjectMatch (content : String) : Option String :=
  let cs := content.toList
  match cs.findIdx? (fun c => c == lbraceChar) with
  | none => none
  | some i =>
    match cs.reverse.findIdx? (fun c => c == rbraceChar) with
    | none => none
    | some rj =>
      let j := cs.length - 1 - rj
      if i < j then some (String.mk ((cs.drop i).take (j - i + 1))) else none

/-- `JSON.stringify({ analytics: null })`. -/
def analyticsNullBody : String := "\x7b\"analytics\":null\x7d"

/-- Response construction after an ok gateway call: extract a JSON object
from the content with the regex and parse it (`parse` abstracts
`JSON.parse`, giving back the accepted object re-serialized); a missing
match throws and a parse error is caught alike, both answered with the
default 200 status and `{"analytics":null}`; a parsed object is answered
200 with `{"analytics":<object>}`. -/
def respondWithAnalytics (parse : String → Option String) (content : String) :
    HttpResponse :=
  match jsonObjectMatch content with
  | none => ⟨200, analyticsNullBody⟩
  | some m =>
    match parse m with
    | none => ⟨200, analyticsNullBody⟩
    | some a => ⟨200, "\x7b\"analytics\":" ++ a ++ "\x7d"⟩

/-- C9: whenever the gateway content holds no parseable JSON object — the
regex finds no match, or the matched text fails to parse — the handler
answers HTTP 200 with body `\x7b"analytics":null\x7d`, not an error
status. -/
theorem c9_parse_failure_yields_null
    (parse : String → Option String) (content : String)
    (h : ∀ m, jsonObjectMatch content = some m → parse m = none) :
    respondWithAnalytics parse content = ⟨200, analyticsNullBody⟩ := by
  cases hm : jsonObjectMatch content with
  | none => simp [respondWithAnalytics, hm]
  | some m => simp [respondWithAnalytics, hm, h m hm]

theorem c9_parse_failure_yields_null_witness :
    respondWithAnalytics (fun _ => none) "model said: \x7bnot json\x7d" =
      ⟨200, analyticsNullBody⟩ :=
  c9_parse_failure_yields_null (fun _ => none) "model said: \x7bnot json\x7d"
    (fun _ _ => rfl)

end AnalyzePerf

namespace Loading

/- Source: `AILoadingScreen` in `src/components/test-list/BookSectionNew.tsx`. -/

/-- `estimatedSeconds ? Math.min(95, (elapsedSeconds / estimatedSeconds) * 100) : null`:
the progress percentage shown by the loading screen.  `estimatedSeconds`
is falsy both when the optional prop is absent and when it is zero, and in
either case no percentage is computed and the bar is not rendered. -/
def progressPercent (elapsedSeconds : Rat) (estimatedSeconds : Option Rat) :
    Option Rat :=
  match estimatedSeconds with
  | none => none
  | some e => if e = 0 then none else some (min 95 (elapsedSeconds / e * 100))

/-- C10 counterexample: with `estimatedSeconds = 0` provided, the ternary
takes its falsy branch — no progress percentage is computed at all, so the
displayed value is not `min(95, elapsed/estimated*100)` as the claim
states. -/
theorem c10_zero_estimate_counterexample :
    progressPercent 7 (some 0) = none ∧
    progressPercent 7 (some 0) ≠ some (min 95 (7 / 0 * 100)) := by
  constructor
  · simp [progressPercent]
  · simp [progressPercent]

/-- C10 (amended): when a provided `estimatedSeconds` is nonzero, the
displayed progress percentage equals `min 95 (elapsed / estimated * 100)`;
every percentage the screen ever displays is at most 95, for every elapsed
time; and when `estimatedSeconds` is absent or zero no percentage is
displayed. -/
theorem c10_progress_capped :
    (∀ elapsed e : Rat, e ≠ 0 →
      progressPercent elapsed (some e) = some (min 95 (elapsed / e * 100))) ∧
    (∀ (elapsed : Rat) (est : Option Rat) (p : Rat),
      progressPercent elapsed est = some p → p ≤ 95) ∧
    (∀ elapsed : Rat,
      progressPercent elapsed none = none ∧
      progressPercent elapsed (some 0) = none) := by
  refine ⟨?_, ?_, ?_⟩
  · intro elapsed e he
    simp [progressPercent, he]
  · intro elapsed est p h
    cases est with
    | none => simp [progressPercent] at h
    | some e =>
      by_cases he : e = 0
      · simp [progressPercent, he] at h
      · simp [progressPercent, he] at h
        rw [← h]
        exact min_le_left 95 (elapsed / e * 100)
  · intro elapsed
    exact ⟨rfl, by simp [progressPercent]⟩

theorem c10_progress_capped_witness :
    progressPercent 200 (some 10) = some 95 := by
  have h := c10_progress_capped.1 200 10 (by norm_num)
  have hm : min (95 : Rat) (200 / 10 * 100) = 95 := by norm_num
  rw [h, hm]

end Loading
